import Mathlib

/-
Shallow embedding of the core of tokenized/smart-contract:
  - pkg/spynode/handlers/data/mempool.go (MemPool and its operations)
  - pkg/spynode/untrusted_node.go (Stop, BroadcastTx, check)

Go maps are modelled as association lists with overwrite-insert and delete;
the source never iterates a map, so iteration order is irrelevant.  Machine
times are modelled as Int nanoseconds (time.Time / time.Duration are int64
nanosecond based).  Each exported MemPool operation acquires and releases the
single mutex around its whole body, so a plain state-to-state function models
one complete call; Conflicting is additionally given a lock-aware model
because its body re-enters RemoveTransaction, which re-acquires the same
non-reentrant sync.Mutex (see below).
-/

namespace SmartContract

/-- Transaction and outpoint hashes (chainhash.Hash), abstracted to Nat.
Both kinds of hash share one Go type, which the source exploits by comparing
transaction hashes with outpoint hashes. -/
abbrev Hash := Nat

/-- Modelled from the spec: wire.OutPoint (pkg/wire is not under src/).
An outpoint references a specific output index of a prior transaction. -/
structure OutPoint where
  hash : Hash
  index : Nat
deriving DecidableEq

/-- Modelled from the spec: wire.OutPoint.OutpointHash (pkg/wire is not under
src/) produces a chainhash.Hash identifying the outpoint; modelled as an
injective pairing of the referenced hash and output index. -/
def OutPoint.OutpointHash (op : OutPoint) : Hash := Nat.pair op.hash op.index

/-- Modelled from the spec: wire.MsgTx (pkg/wire is not under src/), reduced
to the two features the mempool code reads: TxHash() (the transaction digest,
modelled as a stored identifying field) and the PreviousOutPoint of each
input in TxIn. -/
structure MsgTx where
  txHash : Hash
  txIn : List OutPoint
deriving DecidableEq

/-- Go map lookup for a map keyed by chainhash.Hash. -/
def mlookup {β : Type} : List (Hash × β) → Hash → Option β
  | [], _ => none
  | (k, v) :: rest, key => if k = key then some v else mlookup rest key

/-- Go map assignment m[key] = v (overwrites an existing binding). -/
def minsert {β : Type} : List (Hash × β) → Hash → β → List (Hash × β)
  | [], key, v => [(key, v)]
  | (k, w) :: rest, key, v =>
      if k = key then (k, v) :: rest else (k, w) :: minsert rest key v

/-- Go delete(m, key). -/
def merase {β : Type} : List (Hash × β) → Hash → List (Hash × β)
  | [], _ => []
  | (k, w) :: rest, key => if k = key then rest else (k, w) :: merase rest key

/-- Go struct memPoolTx: first-seen time and the outpoints the tx spends. -/
structure memPoolTx where
  time : Int
  outPoints : List OutPoint
deriving DecidableEq

/-- Go struct MemPool: tracked entries, the input index (keyed by outpoint
hash), and the pending-request table. -/
structure MemPool where
  txs : List (Hash × memPoolTx)
  inputs : List (Hash × List Hash)
  requests : List (Hash × Int)
deriving DecidableEq

/-- Go NewMemPool(). -/
def NewMemPool : MemPool := { txs := [], inputs := [], requests := [] }

/-- Go newMemPoolTx: records the time and copies every PreviousOutPoint. -/
def newMemPoolTx (time : Int) (tx : MsgTx) : memPoolTx :=
  { time := time, outPoints := tx.txIn }

/-- Nanoseconds per second; time.Duration.Seconds() compares a duration d
against 3 seconds as a float64, which for int64 nanosecond durations is
equivalent to the integer comparison d > 3e9 ns: at the boundary d = 3e9 the
float value is exactly 3.0 and the strict test fails, and away from the
boundary the fractional part float64(d mod 1e9)/1e9 is strictly between 0
and 1 with ample precision. -/
def nsPerSecond : Int := 1000000000

/-- Go MemPool.AddRequest: returns (alreadyHave, shouldRequest). -/
def AddRequest (mp : MemPool) (now : Int) (txid : Hash) :
    MemPool × Bool × Bool :=
  match mlookup mp.txs txid with
  | some _ => (mp, true, false)
  | none =>
      match mlookup mp.requests txid with
      | some requestTime =>
          if 3 * nsPerSecond < now - requestTime then
            ({ mp with requests := minsert mp.requests txid now }, false, true)
          else
            (mp, false, false)
      | none => ({ mp with requests := minsert mp.requests txid now }, false, true)

/-- Go appendIfNotContained: builds list extended by the members of add that
are not already present.  The Go call site passes the result slice header by
value, so the list built here is discarded by the caller; the caller keeps
its original (empty) result slice, whose zero capacity also rules out any
visible backing-array write. -/
def appendIfNotContained (list : List Hash) (add : List Hash) : List Hash :=
  match add with
  | [] => list
  | addHash :: rest =>
      appendIfNotContained
        (if list.contains addHash then list else list ++ [addHash]) rest

/-- Go input-indexing loop of AddTransaction.  For an outpoint already in the
index the source runs appendIfNotContained(result, list) and
list = append(list, &hash), but both writes go to local slice headers that
are then dropped (the map entry is never reassigned), so the index entry is
left unchanged; only a fresh outpoint gets a new single-element list. -/
def indexOutPoints (hash : Hash) :
    List OutPoint → List (Hash × List Hash) → List (Hash × List Hash)
  | [], inputs => inputs
  | outpoint :: rest, inputs =>
      match mlookup inputs outpoint.OutpointHash with
      | some _ => indexOutPoints hash rest inputs
      | none =>
          indexOutPoints hash rest (minsert inputs outpoint.OutpointHash [hash])

/-- Go MemPool.AddTransaction: returns (conflicts, added).  The conflicts
slice is created empty and, because appendIfNotContained cannot propagate its
appends back to the caller (slice header passed by value, capacity 0), it is
still empty on every return path. -/
def AddTransaction (mp : MemPool) (now : Int) (tx : MsgTx) :
    MemPool × List Hash × Bool :=
  match mlookup mp.txs tx.txHash with
  | some _ => (mp, [], false)
  | none =>
      let newTx := newMemPoolTx now tx
      ({ mp with
          txs := minsert mp.txs tx.txHash newTx,
          inputs := indexOutPoints tx.txHash newTx.outPoints mp.inputs },
       [], true)

/-- Go removal loop inside RemoveTransaction for a sharer list of length
greater than one.  The source scans for the element equal to the OUTPOINT
hash (not the removed transaction hash) and, on a match at index i, runs
append(otherHashes[:i], otherHashes[i+1:]...), which shifts the shared
backing array in place; the new header is never stored back into the map, so
the map keeps the old length and observes the shifted array with the final
element duplicated.  With no match the list is unchanged. -/
def goRemoveShift (l : List Hash) (target : Hash) : List Hash :=
  if l.contains target then
    match l.getLast? with
    | some last => l.erase target ++ [last]
    | none => l
  else l

/-- Go outpoint-unindexing loop of RemoveTransaction. -/
def unindexOutPoints :
    List OutPoint → List (Hash × List Hash) → List (Hash × List Hash)
  | [], inputs => inputs
  | outpoint :: rest, inputs =>
      match mlookup inputs outpoint.OutpointHash with
      | some otherHashes =>
          if 1 < otherHashes.length then
            unindexOutPoints rest
              (minsert inputs outpoint.OutpointHash
                (goRemoveShift otherHashes outpoint.OutpointHash))
          else
            unindexOutPoints rest (merase inputs outpoint.OutpointHash)
      | none => unindexOutPoints rest inputs

/-- Go MemPool.RemoveTransaction: returns true when the hash was tracked. -/
def RemoveTransaction (mp : MemPool) (hash : Hash) : MemPool × Bool :=
  match mlookup mp.txs hash with
  | some tx =>
      ({ mp with
          inputs := unindexOutPoints tx.outPoints mp.inputs,
          txs := merase mp.txs hash },
       true)
  | none => (mp, false)

/-- Go MemPool.TransactionExists. -/
def TransactionExists (mp : MemPool) (hash : Hash) : Bool :=
  (mlookup mp.txs hash).isSome

/-- MemPool together with the state of its sync.Mutex.  A sync.Mutex is not
reentrant: Lock() on a mutex the same goroutine already holds blocks forever.
Operations in this layer return none for that self-deadlock. -/
structure MemPoolL where
  pool : MemPool
  locked : Bool
deriving DecidableEq

/-- Go MemPool.RemoveTransaction as actually invoked at runtime: it starts by
acquiring the mempool mutex, so a call made while the mutex is already held
by the calling goroutine blocks forever (none). -/
def RemoveTransactionL (s : MemPoolL) (hash : Hash) :
    Option (MemPoolL × Bool) :=
  if s.locked then none
  else
    let r := RemoveTransaction s.pool hash
    some ({ pool := r.1, locked := false }, r.2)

/-- Go inner loop of Conflicting over one index entry: append each sharer to
the result, then call the (locking) RemoveTransaction on it. -/
def conflictList :
    List Hash → MemPoolL → List Hash → Option (MemPoolL × List Hash)
  | [], s, result => some (s, result)
  | h :: rest, s, result =>
      match RemoveTransactionL s h with
      | some (s2, _) => conflictList rest s2 (result ++ [h])
      | none => none

/-- Go outer loop of Conflicting over the inputs of the new transaction. -/
def conflictInputs :
    List OutPoint → MemPoolL → List Hash → Option (MemPoolL × List Hash)
  | [], s, result => some (s, result)
  | input :: rest, s, result =>
      match mlookup s.pool.inputs input.OutpointHash with
      | some list =>
          match conflictList list s result with
          | some (s2, result2) => conflictInputs rest s2 result2
          | none => none
      | none => conflictInputs rest s result

/-- Go MemPool.Conflicting: locks the mutex, walks the inputs of the given
transaction collecting and removing sharers, then unlocks.  Because the
nested RemoveTransaction re-acquires the held mutex, any discovered conflict
makes the whole call block forever (none). -/
def Conflicting (s : MemPoolL) (tx : MsgTx) : Option (MemPoolL × List Hash) :=
  if s.locked then none
  else
    match conflictInputs tx.txIn { pool := s.pool, locked := true } [] with
    | some (s2, result) => some ({ pool := s2.pool, locked := false }, result)
    | none => none

/-- State of one UntrustedNode (pkg/spynode/untrusted_node.go), reduced to
the fields the Stop/BroadcastTx paths touch.  The outgoing channel is
modelled by its open/close runtime state plus the queued message log (the
capacity-100 buffer is abstracted to an unbounded queue; no claim concerns
the buffer bound).  closeCount counts executions of close(node.outgoing). -/
structure NodeState where
  stopping : Bool
  outgoingOpen : Bool
  chanClosed : Bool
  closeCount : Nat
  conn : Bool
  outgoing : List Nat
deriving DecidableEq

/-- Go close(node.outgoing): closing an already-closed channel is a runtime
fault, modelled as an error result. -/
def closeChan (n : NodeState) : Except String NodeState :=
  if n.chanClosed then Except.error "close of closed channel"
  else Except.ok { n with chanClosed := true, closeCount := n.closeCount + 1 }

/-- Go UntrustedNode.disconnect: closes the transport, ignoring errors, and
always returns nil. -/
def disconnect (n : NodeState) : NodeState := { n with conn := false }

/-- Go UntrustedNode.Stop: sets the stopping flag, closes the outgoing
channel only when the outgoingOpen guard still holds, then disconnects. -/
def Stop (n : NodeState) : Except String NodeState :=
  let n1 := { n with stopping := true }
  if n1.outgoingOpen then
    match closeChan n1 with
    | Except.ok m => Except.ok (disconnect { m with outgoingOpen := false })
    | Except.error e => Except.error e
  else Except.ok (disconnect n1)

/-- Iterated invocation of Stop, n calls in sequence. -/
def iterStop : Nat → NodeState → Except String NodeState
  | 0, n => Except.ok n
  | k + 1, n =>
      match Stop n with
      | Except.ok n2 => iterStop k n2
      | Except.error e => Except.error e

/-- Go UntrustedNode.BroadcastTx: refuses with the Node inactive error when
the outgoing channel is no longer open; a send on a closed channel would be
a runtime fault, modelled as an error. -/
def BroadcastTx (n : NodeState) (tx : Nat) : Except String NodeState :=
  if n.outgoingOpen = false then Except.error "Node inactive"
  else if n.chanClosed then Except.error "send on closed channel"
  else Except.ok { n with outgoing := n.outgoing ++ [tx] }

/-- Node state a fresh NewUntrustedNode starts from (outgoing channel open,
not stopping); conn is set once Run has connected. -/
def initNode : NodeState :=
  { stopping := false, outgoingOpen := true, chanClosed := false,
    closeCount := 0, conn := true, outgoing := [] }

/-- Modelled from the spec: data.UntrustedState (the handlers/data state
record is not under src/).  Fields are those the check routine reads and
writes, per spec section 3 ConnectionState; a fresh connection starts with
every flag false and no headers-request timestamp. -/
structure UntrustedState where
  versionReceived : Bool
  handshakeComplete : Bool
  headersRequested : Option Int
  verified : Bool
  scoreUpdated : Bool
  addressesRequested : Bool
  memPoolRequested : Bool
deriving DecidableEq

/-- Initial UntrustedState of a fresh connection. -/
def initUntrustedState : UntrustedState :=
  { versionReceived := false, handshakeComplete := false,
    headersRequested := none, verified := false, scoreUpdated := false,
    addressesRequested := false, memPoolRequested := false }

/-- Observable actions of the check routine: the bounded header request, the
reputation-score update with its delta, the get-address request and the
mempool request.  Message payloads are abstracted; buildHeaderRequest is
modelled from the spec as always producing a message (its error path only
aborts the cycle early), and the txTracker Check collaborator is modelled
from the spec as producing no responses, which no claim concerns. -/
inductive NodeAction where
  | headerRequest : NodeAction
  | scoreUpdate : Int → NodeAction
  | getAddr : NodeAction
  | memPoolRequest : NodeAction
deriving DecidableEq

/-- Go UntrustedNode.check: returns the updated state and the actions taken
this cycle, in order. -/
def check (s : UntrustedState) (now : Int) :
    UntrustedState × List NodeAction :=
  if s.versionReceived = false then (s, [])
  else
    let p1 :=
      if s.handshakeComplete = false then
        ({ s with headersRequested := some now, handshakeComplete := true },
         [NodeAction.headerRequest])
      else (s, ([] : List NodeAction))
    if p1.1.verified = false then p1
    else
      let p2 :=
        if p1.1.scoreUpdated = false then
          ({ p1.1 with scoreUpdated := true }, p1.2 ++ [NodeAction.scoreUpdate 5])
        else p1
      let p3 :=
        if p2.1.addressesRequested = false then
          ({ p2.1 with addressesRequested := true }, p2.2 ++ [NodeAction.getAddr])
        else p2
      if p3.1.memPoolRequested = false then
        ({ p3.1 with memPoolRequested := true }, p3.2 ++ [NodeAction.memPoolRequest])
      else p3

/-- Events of a connection lifetime, as seen by the check routine: the
command-handler layer asynchronously sets VersionReceived and Verified
(spec sections 4.2 and 5), and the read loop invokes check once per cycle. -/
inductive NodeEvent where
  | setVersionReceived : NodeEvent
  | setVerified : NodeEvent
  | doCheck : NodeEvent
deriving DecidableEq

/-- One lifetime step: external flag set, or one invocation of check with
its actions appended to the log. -/
def applyEvent (p : UntrustedState × List NodeAction) (e : NodeEvent) :
    UntrustedState × List NodeAction :=
  match e with
  | NodeEvent.setVersionReceived => ({ p.1 with versionReceived := true }, p.2)
  | NodeEvent.setVerified => ({ p.1 with verified := true }, p.2)
  | NodeEvent.doCheck =>
      let r := check p.1 0
      (r.1, p.2 ++ r.2)

/-- Runs a connection lifetime from the fresh state, collecting the action
log. -/
def runTrace (t : List NodeEvent) : UntrustedState × List NodeAction :=
  t.foldl applyEvent (initUntrustedState, [])

/-- Occurrence count of an action in a log. -/
def acount (a : NodeAction) : List NodeAction → Nat
  | [] => 0
  | b :: rest => (if b = a then 1 else 0) + acount a rest

/-- Concrete outpoint O = output 0 of transaction 5. -/
def opO : OutPoint := { hash := 5, index := 0 }

/-- Index key of opO. -/
def opHashO : Hash := opO.OutpointHash

/-- Concrete transaction A (hash 1) spending O. -/
def txA : MsgTx := { txHash := 1, txIn := [opO] }

/-- Concrete transaction B (hash 2) also spending O. -/
def txB : MsgTx := { txHash := 2, txIn := [opO] }

/-- Concrete transaction C (hash 3) spending an unrelated outpoint. -/
def txC : MsgTx := { txHash := 3, txIn := [{ hash := 6, index := 0 }] }

/-- Mempool holding only A. -/
def mpA : MemPool := (AddTransaction NewMemPool 0 txA).1

/-- Mempool after adding A then B. -/
def mpAB : MemPool := (AddTransaction mpA 0 txB).1

/-- Mempool state in which outpoint O has the two co-spenders 1 and 2: the
configuration the multi-co-spender clause of the spec describes. -/
def mpMulti : MemPool :=
  { txs := [(1, { time := 0, outPoints := [opO] }),
            (2, { time := 0, outPoints := [opO] })],
    inputs := [(opHashO, [1, 2])],
    requests := [] }

/-- Mempool with no entries and one pending request for hash 7 at time 0. -/
def mpReq : MemPool := { txs := [], inputs := [], requests := [(7, 0)] }

theorem mlookup_minsert_self {β : Type} (l : List (Hash × β)) (k : Hash)
    (v : β) : mlookup (minsert l k v) k = some v := by
  induction l with
  | nil => simp [minsert, mlookup]
  | cons p rest ih =>
      obtain ⟨k1, v1⟩ := p
      by_cases h : k1 = k
      · simp [minsert, h, mlookup]
      · simp [minsert, h, mlookup, ih]

theorem mlookup_minsert_ne {β : Type} (l : List (Hash × β)) (k k2 : Hash)
    (v : β) (h : k ≠ k2) : mlookup (minsert l k v) k2 = mlookup l k2 := by
  induction l with
  | nil => simp [minsert, mlookup, h]
  | cons p rest ih =>
      obtain ⟨k1, v1⟩ := p
      by_cases h1 : k1 = k
      · subst h1
        simp [minsert, mlookup, h]
      · simp [minsert, h1, mlookup, ih]

theorem addTransaction_of_tracked (mp : MemPool) (now : Int) (tx : MsgTx)
    (v : memPoolTx) (h : mlookup mp.txs tx.txHash = some v) :
    AddTransaction mp now tx = (mp, [], false) := by
  unfold AddTransaction
  rw [h]

theorem addTransaction_of_new (mp : MemPool) (now : Int) (tx : MsgTx)
    (h : mlookup mp.txs tx.txHash = none) :
    AddTransaction mp now tx =
      ({ mp with
          txs := minsert mp.txs tx.txHash (newMemPoolTx now tx),
          inputs := indexOutPoints tx.txHash (newMemPoolTx now tx).outPoints
                      mp.inputs },
       [], true) := by
  unfold AddTransaction
  rw [h]

theorem conflictList_locked (l : List Hash) (s : MemPoolL) (r : List Hash)
    (out : MemPoolL × List Hash) (hs : s.locked = true)
    (h : conflictList l s r = some out) : out.1 = s := by
  cases l with
  | nil =>
      unfold conflictList at h
      cases h
      rfl
  | cons a rest =>
      unfold conflictList RemoveTransactionL at h
      simp [hs] at h

theorem conflictInputs_locked (ins : List OutPoint) :
    ∀ (s : MemPoolL) (r : List Hash) (out : MemPoolL × List Hash),
      s.locked = true → conflictInputs ins s r = some out → out.1 = s := by
  induction ins with
  | nil =>
      intro s r out hs h
      unfold conflictInputs at h
      cases h
      rfl
  | cons a rest ih =>
      intro s r out hs h
      unfold conflictInputs at h
      cases hm : mlookup s.pool.inputs a.OutpointHash with
      | none =>
          rw [hm] at h
          exact ih s r out hs h
      | some l =>
          rw [hm] at h
          dsimp only at h
          cases hc : conflictList l s r with
          | none =>
              rw [hc] at h
              simp at h
          | some p =>
              obtain ⟨p1, p2⟩ := p
              rw [hc] at h
              dsimp only at h
              have hp : p1 = s := conflictList_locked l s r (p1, p2) hs hc
              rw [hp] at h
              exact ih s p2 out hs h

theorem conflicting_pool_unchanged (s : MemPoolL) (tx : MsgTx)
    (out : MemPoolL × List Hash) (h : Conflicting s tx = some out) :
    out.1.pool = s.pool := by
  unfold Conflicting at h
  by_cases hl : s.locked
  · simp [hl] at h
  · simp only [hl, Bool.false_eq_true, if_false] at h
    cases hc : conflictInputs tx.txIn { pool := s.pool, locked := true } [] with
    | none =>
        rw [hc] at h
        simp at h
    | some p =>
        obtain ⟨p1, p2⟩ := p
        rw [hc] at h
        simp only [] at h
        have hp : p1 = { pool := s.pool, locked := true } :=
          conflictInputs_locked tx.txIn _ [] (p1, p2) rfl hc
        cases h
        rw [hp]

/-- C1: given tracked transaction A spending outpoint O and a new
transaction B also spending O, the source intends Conflicting(B) to return
the hash of A and evict A, but the call self-deadlocks: Conflicting holds
the mempool mutex and invokes RemoveTransaction, which re-acquires the same
non-reentrant sync.Mutex, so the call blocks forever (modelled none) and the
claimed return and eviction never happen. -/
theorem C1_conflicting_deadlocks_on_conflict :
    TransactionExists mpA txA.txHash = true ∧
    mlookup mpA.inputs opHashO = some [txA.txHash] ∧
    Conflicting { pool := mpA, locked := false } txB = none :=
  ⟨rfl, rfl, rfl⟩

/-- C2: removing tracked hash 2 from a mempool in which outpoint O has the
co-spenders 1 and 2 deletes the entry of 2 and returns true, but leaves the
sharer list of O unchanged at [1, 2]: the pruning loop compares each sharer
against the outpoint hash instead of the removed transaction hash, and the
shifted slice is never stored back into the map.  The claim says the list
becomes [1]. -/
theorem C2_remove_does_not_prune_cospender :
    (RemoveTransaction mpMulti 2).2 = true ∧
    mlookup (RemoveTransaction mpMulti 2).1.txs 2 = none ∧
    mlookup (RemoveTransaction mpMulti 2).1.inputs opHashO = some [1, 2] :=
  ⟨rfl, rfl, rfl⟩

/-- C3: after AddTransaction accepts B (hash 2) spending outpoint O already
spent by tracked A (hash 1), the index entry of O is still [1]: the source
computes list = append(list, &hash) but never stores the new slice header
back into the inputs map, so the accepted transaction is missing from the
index of every previously indexed outpoint, violating the claimed
consistency invariant. -/
theorem C3_second_spender_missing_from_index :
    (AddTransaction mpA 0 txB).2.2 = true ∧
    TransactionExists mpAB txB.txHash = true ∧
    mlookup mpAB.inputs opHashO = some [txA.txHash] :=
  ⟨rfl, rfl, rfl⟩

/-- C4: a transaction whose hash is untracked is added with added=true, and
a second AddTransaction with the same transaction returns added=false and
leaves the mempool state unchanged. -/
theorem C4_addTransaction_idempotent (mp : MemPool) (t1 t2 : Int)
    (tx : MsgTx) (h : mlookup mp.txs tx.txHash = none) :
    (AddTransaction mp t1 tx).2.2 = true ∧
    (AddTransaction (AddTransaction mp t1 tx).1 t2 tx).2.2 = false ∧
    (AddTransaction (AddTransaction mp t1 tx).1 t2 tx).1 =
      (AddTransaction mp t1 tx).1 := by
  have h1 := addTransaction_of_new mp t1 tx h
  have h2 : mlookup (AddTransaction mp t1 tx).1.txs tx.txHash =
      some (newMemPoolTx t1 tx) := by
    rw [h1]
    exact mlookup_minsert_self mp.txs tx.txHash (newMemPoolTx t1 tx)
  have h3 := addTransaction_of_tracked (AddTransaction mp t1 tx).1 t2 tx
    (newMemPoolTx t1 tx) h2
  refine ⟨by rw [h1], by rw [h3], by rw [h3]⟩

/-- C4 witness: the empty mempool accepts A once and rejects the repeat. -/
theorem C4_witness :
    mlookup NewMemPool.txs txA.txHash = none ∧
    ((AddTransaction NewMemPool 0 txA).2.2 = true ∧
     (AddTransaction (AddTransaction NewMemPool 0 txA).1 0 txA).2.2 = false ∧
     (AddTransaction (AddTransaction NewMemPool 0 txA).1 0 txA).1 =
       (AddTransaction NewMemPool 0 txA).1) :=
  ⟨rfl, C4_addTransaction_idempotent NewMemPool 0 0 txA rfl⟩

/-- C5 counterexample: hash 7 is untracked and was last requested exactly 3
seconds before the call, yet AddRequest returns shouldRequest=false and
records nothing; the claim says elapsed of exactly 3 seconds yields
shouldRequest=true with a fresh timestamp.  The source requires the elapsed
time to exceed 3 seconds strictly. -/
theorem C5_counterexample :
    mlookup mpReq.txs 7 = none ∧
    mlookup mpReq.requests 7 = some 0 ∧
    (3000000000 : Int) - 0 = 3 * nsPerSecond ∧
    AddRequest mpReq 3000000000 7 = (mpReq, false, false) :=
  ⟨rfl, rfl, by decide, rfl⟩

/-- C5 amended: a tracked hash yields (true, false); an untracked hash with
no recorded request, or whose last request is STRICTLY more than 3 seconds
old, gets the current time recorded and yields (false, true); otherwise
(last request at most 3 seconds old, the exactly-3-seconds boundary
included) the call leaves the state unchanged and yields (false, false). -/
theorem C5_addRequest_threshold (mp : MemPool) (now : Int) (x : Hash) :
    (∀ v, mlookup mp.txs x = some v → AddRequest mp now x = (mp, true, false)) ∧
    (mlookup mp.txs x = none → mlookup mp.requests x = none →
      AddRequest mp now x =
        ({ mp with requests := minsert mp.requests x now }, false, true)) ∧
    (∀ t, mlookup mp.txs x = none → mlookup mp.requests x = some t →
      3 * nsPerSecond < now - t →
      AddRequest mp now x =
        ({ mp with requests := minsert mp.requests x now }, false, true)) ∧
    (∀ t, mlookup mp.txs x = none → mlookup mp.requests x = some t →
      now - t ≤ 3 * nsPerSecond →
      AddRequest mp now x = (mp, false, false)) := by
  refine ⟨?_, ?_, ?_, ?_⟩
  · intro v hv
    unfold AddRequest
    rw [hv]
  · intro h1 h2
    unfold AddRequest
    rw [h1, h2]
  · intro t h1 h2 h3
    unfold AddRequest
    rw [h1]
    dsimp only
    rw [h2]
    dsimp only
    rw [if_pos h3]
  · intro t h1 h2 h3
    unfold AddRequest
    rw [h1]
    dsimp only
    rw [h2]
    dsimp only
    rw [if_neg (not_lt.mpr h3)]

/-- C5 witness: one nanosecond past the 3-second boundary the request is
re-issued and recorded; at the boundary it is refused. -/
theorem C5_witness :
    AddRequest mpReq 3000000001 7 =
      ({ mpReq with requests := minsert mpReq.requests 7 3000000001 },
       false, true) ∧
    AddRequest mpReq 3000000000 7 = (mpReq, false, false) :=
  ⟨(C5_addRequest_threshold mpReq 3000000001 7).2.2.1 0 rfl rfl (by decide),
   (C5_addRequest_threshold mpReq 3000000000 7).2.2.2 0 rfl rfl (by decide)⟩

/-- C6: AddTransaction on an untracked transaction returns an empty
conflicts sequence together with added=true and removes no pre-existing
tracked entry, also when an input outpoint is already spent by a different
tracked transaction (the conflict accumulation of the source never reaches
the returned slice, and nothing is ever deleted on this path). -/
theorem C6_add_returns_empty_conflicts (mp : MemPool) (now : Int)
    (tx : MsgTx) (h : mlookup mp.txs tx.txHash = none) :
    (AddTransaction mp now tx).2.1 = [] ∧
    (AddTransaction mp now tx).2.2 = true ∧
    (∀ x e, mlookup mp.txs x = some e →
      mlookup (AddTransaction mp now tx).1.txs x = some e) := by
  have h1 := addTransaction_of_new mp now tx h
  refine ⟨by rw [h1], by rw [h1], ?_⟩
  intro x e he
  have hne : tx.txHash ≠ x := by
    intro hEq
    rw [← hEq] at he
    rw [h] at he
    exact Option.noConfusion he
  rw [h1]
  show mlookup (minsert mp.txs tx.txHash (newMemPoolTx now tx)) x = some e
  rw [mlookup_minsert_ne mp.txs tx.txHash x (newMemPoolTx now tx) hne]
  exact he

/-- C6 witness: adding B to a mempool in which A already spends the same
outpoint returns (empty, true) and A stays tracked. -/
theorem C6_witness :
    mlookup mpA.inputs opHashO = some [txA.txHash] ∧
    (AddTransaction mpA 0 txB).2.1 = [] ∧
    (AddTransaction mpA 0 txB).2.2 = true ∧
    mlookup (AddTransaction mpA 0 txB).1.txs txA.txHash =
      some (newMemPoolTx 0 txA) :=
  ⟨rfl, (C6_add_returns_empty_conflicts mpA 0 txB rfl).1,
   (C6_add_returns_empty_conflicts mpA 0 txB rfl).2.1,
   (C6_add_returns_empty_conflicts mpA 0 txB rfl).2.2 txA.txHash
     (newMemPoolTx 0 txA) rfl⟩

/-- C10: no MemPool operation deletes from the pending-request table:
AddTransaction, RemoveTransaction and a returning Conflicting leave the
requests map unchanged (TransactionExists is modelled as a pure read), and
AddRequest leaves it unchanged when alreadyHave is true or shouldRequest is
false, and otherwise performs exactly the overwrite-insert of the current
time for the queried hash. -/
theorem C10_requests_frame :
    (∀ mp now tx, (AddTransaction mp now tx).1.requests = mp.requests) ∧
    (∀ mp x, (RemoveTransaction mp x).1.requests = mp.requests) ∧
    (∀ s tx out, Conflicting s tx = some out →
      out.1.pool.requests = s.pool.requests) ∧
    (∀ mp now x,
      ((AddRequest mp now x).2.1 = true → (AddRequest mp now x).1 = mp) ∧
      ((AddRequest mp now x).2.2 = false → (AddRequest mp now x).1 = mp) ∧
      ((AddRequest mp now x).2.1 = false → (AddRequest mp now x).2.2 = true →
        (AddRequest mp now x).1.requests = minsert mp.requests x now)) := by
  refine ⟨?_, ?_, ?_, ?_⟩
  · intro mp now tx
    unfold AddTransaction
    split <;> rfl
  · intro mp x
    unfold RemoveTransaction
    split <;> rfl
  · intro s tx out h
    rw [conflicting_pool_unchanged s tx out h]
  · intro mp now x
    unfold AddRequest
    cases htx : mlookup mp.txs x with
    | some v => exact ⟨fun _ => rfl, fun _ => rfl, fun hab _ => Bool.noConfusion hab⟩
    | none =>
        cases hrq : mlookup mp.requests x with
        | none => exact ⟨fun hab => Bool.noConfusion hab, fun hsr => Bool.noConfusion hsr, fun _ _ => rfl⟩
        | some t =>
            dsimp only
            by_cases hlt : 3 * nsPerSecond < now - t
            · rw [if_pos hlt]
              exact ⟨fun hab => Bool.noConfusion hab, fun hsr => Bool.noConfusion hsr, fun _ _ => rfl⟩
            · rw [if_neg hlt]
              exact ⟨fun _ => rfl, fun _ => rfl, fun _ hsr => Bool.noConfusion hsr⟩

/-- C10 witness: concrete frames — adding B, removing A and a returning
Conflicting call keep the request table of the respective state; a throttled
AddRequest leaves the state unchanged and a granted one records the time. -/
theorem C10_witness :
    (AddTransaction mpA 0 txB).1.requests = mpA.requests ∧
    (RemoveTransaction mpA txA.txHash).1.requests = mpA.requests ∧
    (({ pool := mpA, locked := false } : MemPoolL),
      ([] : List Hash)).1.pool.requests = mpA.requests ∧
    (AddRequest mpReq 1 7).1 = mpReq ∧
    (AddRequest mpReq 3000000001 7).1.requests =
      minsert mpReq.requests 7 3000000001 :=
  ⟨C10_requests_frame.1 mpA 0 txB,
   C10_requests_frame.2.1 mpA txA.txHash,
   C10_requests_frame.2.2.1 { pool := mpA, locked := false } txC
     ({ pool := mpA, locked := false }, []) rfl,
   (C10_requests_frame.2.2.2 mpReq 1 7).2.1 rfl,
   (C10_requests_frame.2.2.2 mpReq 3000000001 7).2.2 rfl rfl⟩

theorem stop_stopped (m : NodeState) (h1 : m.outgoingOpen = false)
    (h2 : m.stopping = true) (h3 : m.conn = false) :
    Stop m = Except.ok m := by
  obtain ⟨st, op, cc, ct, cn, og⟩ := m
  simp_all [Stop, disconnect]

theorem iterStop_stopped (j : Nat) (m : NodeState)
    (h1 : m.outgoingOpen = false) (h2 : m.stopping = true)
    (h3 : m.conn = false) : iterStop j m = Except.ok m := by
  induction j with
  | zero => rfl
  | succ j ih =>
      unfold iterStop
      rw [stop_stopped m h1 h2 h3]
      exact ih

/-- C7: from a node whose outgoing channel is open and has never been
closed, any number k+1 of consecutive Stop calls succeeds (no close of a
closed channel, hence no runtime fault), sets the stopping flag, and
executes close on the outgoing channel exactly once. -/
theorem C7_stop_idempotent (n : NodeState) (k : Nat)
    (hopen : n.outgoingOpen = true) (hclosed : n.chanClosed = false)
    (hcount : n.closeCount = 0) :
    ∃ n2, iterStop (k + 1) n = Except.ok n2 ∧ n2.stopping = true ∧
      n2.chanClosed = true ∧ n2.closeCount = 1 ∧ n2.outgoingOpen = false := by
  obtain ⟨st, op, cc, ct, cn, og⟩ := n
  simp only at hopen hclosed hcount
  subst hopen
  subst hclosed
  subst hcount
  refine ⟨⟨true, false, true, 1, false, og⟩, ?_, rfl, rfl, rfl, rfl⟩
  have hstop : Stop ⟨st, true, false, 0, cn, og⟩ =
      Except.ok (⟨true, false, true, 1, false, og⟩ : NodeState) := rfl
  unfold iterStop
  rw [hstop]
  exact iterStop_stopped k _ rfl rfl rfl

/-- C7 witness: two Stop calls on a fresh node end in the fully stopped
state with exactly one close. -/
theorem C7_witness :
    ∃ n2, iterStop 2 initNode = Except.ok n2 ∧ n2.stopping = true ∧
      n2.chanClosed = true ∧ n2.closeCount = 1 ∧ n2.outgoingOpen = false :=
  C7_stop_idempotent initNode 1 rfl rfl rfl

theorem stop_ok_closed (n n2 : NodeState) (h : Stop n = Except.ok n2) :
    n2.outgoingOpen = false := by
  obtain ⟨st, op, cc, ct, cn, og⟩ := n
  cases op with
  | false =>
      have h3 : Except.ok (⟨true, false, cc, ct, false, og⟩ : NodeState) =
          Except.ok n2 := h
      injection h3 with h2
      rw [← h2]
  | true =>
      cases cc with
      | false =>
          have h3 : Except.ok (⟨true, false, true, ct + 1, false, og⟩ :
              NodeState) = Except.ok n2 := h
          injection h3 with h2
          rw [← h2]
      | true =>
          have h3 : Except.error "close of closed channel" =
              (Except.ok n2 : Except String NodeState) := h
          exact Except.noConfusion h3

/-- C8: every BroadcastTx on a node state produced by a successful Stop
returns the Node inactive error, without reaching the send on the closed
channel. -/
theorem C8_broadcast_after_stop (n n2 : NodeState) (tx : Nat)
    (h : Stop n = Except.ok n2) :
    BroadcastTx n2 tx = Except.error "Node inactive" := by
  have hopen := stop_ok_closed n n2 h
  simp [BroadcastTx, hopen]

/-- C8 witness: broadcasting on the stopped fresh node is refused. -/
theorem C8_witness :
    BroadcastTx ⟨true, false, true, 1, false, []⟩ 9 =
      Except.error "Node inactive" :=
  C8_broadcast_after_stop initNode _ 9 rfl

/-- Numeric value of a one-shot guard flag. -/
def b2n (b : Bool) : Nat := if b then 1 else 0

theorem acount_append (a : NodeAction) (l1 l2 : List NodeAction) :
    acount a (l1 ++ l2) = acount a l1 + acount a l2 := by
  induction l1 with
  | nil => simp [acount]
  | cons b rest ih => simp [acount, ih, Nat.add_assoc]

/-- Relation between a lifetime action log and the guard flags: each guarded
action has occurred exactly as often as its flag says (0 before it fires, 1
after), and a completed handshake has a headers-request timestamp. -/
def TraceInv (p : UntrustedState × List NodeAction) : Prop :=
  acount NodeAction.headerRequest p.2 = b2n p.1.handshakeComplete ∧
  acount (NodeAction.scoreUpdate 5) p.2 = b2n p.1.scoreUpdated ∧
  acount NodeAction.getAddr p.2 = b2n p.1.addressesRequested ∧
  acount NodeAction.memPoolRequest p.2 = b2n p.1.memPoolRequested ∧
  (p.1.handshakeComplete = true → p.1.headersRequested.isSome = true)

theorem check_traceInv (s : UntrustedState) (now : Int)
    (log : List NodeAction) (h : TraceInv (s, log)) :
    TraceInv ((check s now).1, log ++ (check s now).2) := by
  obtain ⟨h1, h2, h3, h4, h5⟩ := h
  simp only at h1 h2 h3 h4 h5
  cases hv : s.versionReceived <;> cases hh : s.handshakeComplete <;>
    cases hr : s.verified <;> cases hs : s.scoreUpdated <;>
      cases ha : s.addressesRequested <;> cases hm : s.memPoolRequested <;>
        simp_all [check, TraceInv, acount_append, acount, b2n]

theorem applyEvent_traceInv (p : UntrustedState × List NodeAction)
    (e : NodeEvent) (h : TraceInv p) : TraceInv (applyEvent p e) := by
  obtain ⟨s, log⟩ := p
  cases e with
  | setVersionReceived => exact h
  | setVerified => exact h
  | doCheck => exact check_traceInv s 0 log h

theorem foldl_traceInv (t : List NodeEvent) :
    ∀ p, TraceInv p → TraceInv (t.foldl applyEvent p) := by
  induction t with
  | nil => intro p hp; exact hp
  | cons e rest ih => intro p hp; exact ih _ (applyEvent_traceInv p e hp)

theorem runTrace_traceInv (t : List NodeEvent) : TraceInv (runTrace t) := by
  refine foldl_traceInv t (initUntrustedState, []) ⟨rfl, rfl, rfl, rfl, ?_⟩
  intro h
  exact Bool.noConfusion h

/-- One-shot guard flags only ever go from false to true. -/
def FlagsMono (s s2 : UntrustedState) : Prop :=
  (s.handshakeComplete = true → s2.handshakeComplete = true) ∧
  (s.scoreUpdated = true → s2.scoreUpdated = true) ∧
  (s.addressesRequested = true → s2.addressesRequested = true) ∧
  (s.memPoolRequested = true → s2.memPoolRequested = true)

theorem check_mono (s : UntrustedState) (now : Int) :
    FlagsMono s (check s now).1 := by
  cases hv : s.versionReceived <;> cases hh : s.handshakeComplete <;>
    cases hr : s.verified <;> cases hs : s.scoreUpdated <;>
      cases ha : s.addressesRequested <;> cases hm : s.memPoolRequested <;>
        simp_all [check, FlagsMono]

theorem applyEvent_mono (p : UntrustedState × List NodeAction)
    (e : NodeEvent) : FlagsMono p.1 (applyEvent p e).1 := by
  cases e with
  | setVersionReceived => exact ⟨id, id, id, id⟩
  | setVerified => exact ⟨id, id, id, id⟩
  | doCheck => exact check_mono p.1 0

theorem foldl_mono (t : List NodeEvent) :
    ∀ p, FlagsMono p.1 ((t.foldl applyEvent p).1) := by
  induction t with
  | nil => intro p; exact ⟨id, id, id, id⟩
  | cons e rest ih =>
      intro p
      have h1 := applyEvent_mono p e
      have h2 := ih (applyEvent p e)
      exact ⟨fun a => h2.1 (h1.1 a), fun a => h2.2.1 (h1.2.1 a),
             fun a => h2.2.2.1 (h1.2.2.1 a), fun a => h2.2.2.2 (h1.2.2.2 a)⟩

theorem check_fires_header (s : UntrustedState) (now : Int)
    (h : s.versionReceived = true) :
    (check s now).1.handshakeComplete = true := by
  cases hh : s.handshakeComplete <;> cases hr : s.verified <;>
    cases hs : s.scoreUpdated <;> cases ha : s.addressesRequested <;>
      cases hm : s.memPoolRequested <;> simp_all [check]

theorem check_fires_post (s : UntrustedState) (now : Int)
    (h1 : s.versionReceived = true) (h2 : s.verified = true) :
    (check s now).1.scoreUpdated = true ∧
    (check s now).1.addressesRequested = true ∧
    (check s now).1.memPoolRequested = true := by
  cases hh : s.handshakeComplete <;> cases hs : s.scoreUpdated <;>
    cases ha : s.addressesRequested <;> cases hm : s.memPoolRequested <;>
      simp_all [check]

theorem runTrace_append (t t2 : List NodeEvent) :
    runTrace (t ++ t2) = t2.foldl applyEvent (runTrace t) := by
  unfold runTrace
  exact List.foldl_append applyEvent _ t t2

theorem b2n_le_one (b : Bool) : b2n b ≤ 1 := by
  cases b <;> simp [b2n]

/-- C9 counterexample: in the lifetime where the peer version arrives and
check then runs twice but Verified is never set, VersionReceived is true and
check has been invoked repeatedly, yet the +5 score update occurs zero
times, not exactly once as claimed (only the header request fires; the three
post-verification actions are additionally gated on Verified). -/
theorem C9_counterexample :
    (runTrace [NodeEvent.setVersionReceived, NodeEvent.doCheck,
      NodeEvent.doCheck]).1.versionReceived = true ∧
    (runTrace [NodeEvent.setVersionReceived, NodeEvent.doCheck,
      NodeEvent.doCheck]).2 = [NodeAction.headerRequest] ∧
    acount (NodeAction.scoreUpdate 5)
      (runTrace [NodeEvent.setVersionReceived, NodeEvent.doCheck,
        NodeEvent.doCheck]).2 = 0 :=
  ⟨rfl, rfl, rfl⟩

/-- C9 amended: while VersionReceived is false, check takes no action and
enqueues nothing; over any lifetime each of the four guarded actions occurs
at most once; once VersionReceived is true, the next check fires the header
request — after which it has occurred exactly once, with HandshakeComplete
and the request timestamp set, no matter how many further events follow —
and once Verified is additionally true, the next check fires the score
update, get-address request and mempool request, after which each has
occurred exactly once, no matter how many further events follow. -/
theorem C9_check_one_shot :
    (∀ s now, s.versionReceived = false → check s now = (s, [])) ∧
    (∀ t, acount NodeAction.headerRequest (runTrace t).2 ≤ 1 ∧
          acount (NodeAction.scoreUpdate 5) (runTrace t).2 ≤ 1 ∧
          acount NodeAction.getAddr (runTrace t).2 ≤ 1 ∧
          acount NodeAction.memPoolRequest (runTrace t).2 ≤ 1) ∧
    (∀ t t2, (runTrace t).1.versionReceived = true →
        acount NodeAction.headerRequest
          (runTrace (t ++ NodeEvent.doCheck :: t2)).2 = 1 ∧
        (runTrace (t ++ NodeEvent.doCheck :: t2)).1.handshakeComplete = true ∧
        (runTrace (t ++ NodeEvent.doCheck :: t2)).1.headersRequested.isSome
          = true) ∧
    (∀ t t2, (runTrace t).1.versionReceived = true →
        (runTrace t).1.verified = true →
        acount (NodeAction.scoreUpdate 5)
          (runTrace (t ++ NodeEvent.doCheck :: t2)).2 = 1 ∧
        acount NodeAction.getAddr
          (runTrace (t ++ NodeEvent.doCheck :: t2)).2 = 1 ∧
        acount NodeAction.memPoolRequest
          (runTrace (t ++ NodeEvent.doCheck :: t2)).2 = 1) := by
  refine ⟨?_, ?_, ?_, ?_⟩
  · intro s now h
    simp [check, h]
  · intro t
    have hinv := runTrace_traceInv t
    exact ⟨hinv.1 ▸ b2n_le_one _, hinv.2.1 ▸ b2n_le_one _,
           hinv.2.2.1 ▸ b2n_le_one _, hinv.2.2.2.1 ▸ b2n_le_one _⟩
  · intro t t2 hv
    have hsplit : runTrace (t ++ NodeEvent.doCheck :: t2) =
        t2.foldl applyEvent (applyEvent (runTrace t) NodeEvent.doCheck) := by
      rw [runTrace_append]
      rfl
    have hfire : (applyEvent (runTrace t) NodeEvent.doCheck).1.handshakeComplete
        = true := check_fires_header (runTrace t).1 0 hv
    have hmono := foldl_mono t2 (applyEvent (runTrace t) NodeEvent.doCheck)
    have hhc : (runTrace (t ++ NodeEvent.doCheck :: t2)).1.handshakeComplete
        = true := by
      rw [hsplit]
      exact hmono.1 hfire
    have hinv := runTrace_traceInv (t ++ NodeEvent.doCheck :: t2)
    refine ⟨?_, hhc, hinv.2.2.2.2 hhc⟩
    rw [hinv.1, hhc]
    rfl
  · intro t t2 hv hr
    have hsplit : runTrace (t ++ NodeEvent.doCheck :: t2) =
        t2.foldl applyEvent (applyEvent (runTrace t) NodeEvent.doCheck) := by
      rw [runTrace_append]
      rfl
    have hfire := check_fires_post (runTrace t).1 0 hv hr
    have hmono := foldl_mono t2 (applyEvent (runTrace t) NodeEvent.doCheck)
    have hinv := runTrace_traceInv (t ++ NodeEvent.doCheck :: t2)
    have hsu : (runTrace (t ++ NodeEvent.doCheck :: t2)).1.scoreUpdated
        = true := by
      rw [hsplit]
      exact hmono.2.1 hfire.1
    have har : (runTrace (t ++ NodeEvent.doCheck :: t2)).1.addressesRequested
        = true := by
      rw [hsplit]
      exact hmono.2.2.1 hfire.2.1
    have hmr : (runTrace (t ++ NodeEvent.doCheck :: t2)).1.memPoolRequested
        = true := by
      rw [hsplit]
      exact hmono.2.2.2 hfire.2.2
    refine ⟨?_, ?_, ?_⟩
    · rw [hinv.2.1, hsu]
      rfl
    · rw [hinv.2.2.1, har]
      rfl
    · rw [hinv.2.2.2.1, hmr]
      rfl

/-- C9 witness: a silent pre-version check does nothing; the first check
after the version fires the header request exactly once; the first check
after verification fires the score update exactly once. -/
theorem C9_witness :
    check initUntrustedState 0 = (initUntrustedState, []) ∧
    acount NodeAction.headerRequest
      (runTrace [NodeEvent.setVersionReceived, NodeEvent.doCheck]).2 = 1 ∧
    acount (NodeAction.scoreUpdate 5)
      (runTrace [NodeEvent.setVersionReceived, NodeEvent.setVerified,
        NodeEvent.doCheck]).2 = 1 :=
  ⟨C9_check_one_shot.1 initUntrustedState 0 rfl,
   (C9_check_one_shot.2.2.1 [NodeEvent.setVersionReceived] [] rfl).1,
   (C9_check_one_shot.2.2.2 [NodeEvent.setVersionReceived,
      NodeEvent.setVerified] [] rfl rfl).1⟩

end SmartContract
